import Mathlib

/-!
# Verification of the Chatbot-BE conversation core

Shallow embedding, in Lean 4, of the algorithmic core of the Chatbot-BE
repository (a FastAPI retrieval-augmented chat backend), together with
theorems settling a list of specification claims against that embedding.

Embedded components and their sources:
* `app/services/tools.py`           — tool dispatcher (`ToolsService`)
* `app/services/vector_store.py`    — vector search result processing
* `app/services/openai_service.py`  — message-list token truncation
* `app/services/document_splitter.py` — document chunker
* `app/api/chat.py`                 — streaming chat orchestrator

Modelling conventions:
* Python strings are modelled as `List Char` (the chunker) or `String`
  (messages and events); Python `int` as `Int`/`Nat`; Python `float`
  similarity scores as `ℚ` (only subtraction and order comparisons occur,
  so exact rationals carry the same structure).
* Python dicts used as keyword-argument objects are modelled as
  `Finmap` from keys to values: Python `**kwargs` binding and every
  handler in the source read a dict only through name lookup, so the
  insertion-order quotient is faithful.
* Fallible code returns an explicit result/outcome type; `try/except`
  blocks become `match` on that type.  External I/O (the OpenAI client,
  ChromaDB, the SQL session) is represented by explicit data parameters.
-/

namespace ChatbotBE

/-! ## Python string primitives

Helpers mirroring the Python builtins used by the embedded code:
`str.isspace` / the regex class `\s` (ASCII), `str.strip`, and string
slicing `s[a:b]` for `0 ≤ a ≤ b`. -/

/-- ASCII whitespace, as recognised by Python `str.strip`, `str.isspace`
and the ASCII regex class `\s`: space, tab, newline, carriage return,
vertical tab, form feed. -/
def pyIsSpace (c : Char) : Bool :=
  c = ' ' || c = '\t' || c = '\n' || c = '\r' || c = '\x0b' || c = '\x0c'

/-- Python `str.strip()`: remove leading and trailing whitespace. -/
def pyStrip (cs : List Char) : List Char :=
  ((cs.dropWhile pyIsSpace).reverse.dropWhile pyIsSpace).reverse

/-- Python slicing `s[a:b]` for `0 ≤ a ≤ b` (clamped at the ends, as in
Python). -/
def pySlice (cs : List Char) (a b : Nat) : List Char :=
  (cs.drop a).take (b - a)

/-! ## Tool dispatcher — `app/services/tools.py`

`ToolsService.execute_tool` receives a tool name and a JSON-decoded
argument dict, injects the authenticated tenant id and the SQL session
into that dict, and invokes the bound handler method, wrapping the
outcome; all exceptions are caught and turned into an error result.

The relational database visible to the handlers is modelled as the list
of product rows (`Db`).  The two handlers that are pure reads of that
database (`get_product_details`, `check_product_availability`) are
embedded in full; the three handlers whose bodies call the external
embedding provider and ChromaDB (`search_knowledge`, `search_products`,
`search_products_by_category`) are parameters of the registry, since
their behaviour is a function of external state. -/

/-- A row of the `products` table, with the columns read by the embedded
handlers (`app/database/models.py`). Timestamps are carried as their
already-formatted strings. -/
structure Product where
  id : String
  tenant_id : String
  is_active : Bool
  name : String
  description : Option String
  category : Option String
  price : Option ℚ
  currency : Option String
  sku : Option String
  stock_quantity : Int
  created_at : String
  updated_at : Option String

/-- The SQL session's visible state: the product rows it can return. -/
structure Db where
  products : List Product

/-- A Python/JSON value as it can appear in a tool-call argument dict or
a tool result: string, integer, float, boolean, null, JSON object/array,
or the injected SQLAlchemy session object. -/
inductive PyVal where
  | str (s : String)
  | int (n : Int)
  | num (q : ℚ)
  | bool (b : Bool)
  | none
  | obj (fields : List (String × PyVal))
  | arr (items : List PyVal)
  | db (d : Db)

/-- A keyword-argument dict: finite map from argument names to values.
Python dicts are read by the dispatcher and handlers only through key
lookup (`arguments[k] = v` assignment and `**arguments` binding), so the
insertion-order quotient `Finmap` is a faithful model. -/
abbrev Args := Finmap (fun _ : String => PyVal)

/-- Outcome of invoking a Python handler coroutine: a returned value or a
raised exception carrying its message. -/
inductive ToolOutcome where
  | ok (v : PyVal)
  | exn (msg : String)

/-- A tool handler as seen by the dispatcher: a function of the keyword
arguments. -/
abbrev Handler := Args → ToolOutcome

/-- `execute_tool`'s result dict: `{"success": True, "data": ...}` or
`{"error": ...}` (`tools.py` lines 150, 157, 161). -/
inductive ToolResult where
  | success (data : PyVal)
  | error (msg : String)

/-- Python `==` between argument values and database column values, as
exercised by the embedded handlers' filters: equality within a type,
`False` across types (a string column never equals an integer argument). -/
def pyEq : PyVal → PyVal → Bool
  | PyVal.str a, PyVal.str b => a = b
  | PyVal.int a, PyVal.int b => a = b
  | PyVal.num a, PyVal.num b => a = b
  | PyVal.bool a, PyVal.bool b => a = b
  | PyVal.none, PyVal.none => true
  | _, _ => false

/-- The dict returned by `get_product_details` for a found product
(`tools.py` lines 311–324). -/
def productDetailsVal (p : Product) : PyVal :=
  PyVal.obj
    [("id", PyVal.str p.id),
     ("name", PyVal.str p.name),
     ("description", (p.description.map PyVal.str).getD PyVal.none),
     ("category", (p.category.map PyVal.str).getD PyVal.none),
     ("price", (p.price.map PyVal.num).getD PyVal.none),
     ("currency", (p.currency.map PyVal.str).getD PyVal.none),
     ("sku", (p.sku.map PyVal.str).getD PyVal.none),
     ("stock_quantity", PyVal.int p.stock_quantity),
     ("created_at", PyVal.str p.created_at),
     ("updated_at", (p.updated_at.map PyVal.str).getD PyVal.none)]

/-- The `db.query(Product).filter(Product.id == product_id,
Product.tenant_id == tenant_id, Product.is_active == True).first()`
lookup shared by `get_product_details` and `check_product_availability`. -/
def dbFirstProduct (d : Db) (pid tid : PyVal) : Option Product :=
  d.products.find? fun p =>
    pyEq (PyVal.str p.id) pid && pyEq (PyVal.str p.tenant_id) tid && p.is_active

/-- Handler `ToolsService.get_product_details` (`tools.py` lines
294–328): bind `**arguments` to `(product_id, tenant_id, db)` — an
unexpected or missing keyword raises `TypeError` at the call site,
before the body runs, which propagates to `execute_tool`'s `except` (so
it is an `exn` outcome here) — then return the product dict, or `None`
when no row matches.  An exception inside the body (e.g. the `db`
argument not being a session) is caught by the handler's own
`try/except`, which returns `None`. -/
def get_product_details (args : Args) : ToolOutcome :=
  if args.keys ⊆ ({"product_id", "tenant_id", "db"} : Finset String) then
    match args.lookup "product_id", args.lookup "tenant_id", args.lookup "db" with
    | some pid, some tid, some (PyVal.db d) =>
        match dbFirstProduct d pid tid with
        | some p => ToolOutcome.ok (productDetailsVal p)
        | Option.none => ToolOutcome.ok PyVal.none
    | some _, some _, some _ => ToolOutcome.ok PyVal.none
    | _, _, _ => ToolOutcome.exn "TypeError: missing required argument"
  else ToolOutcome.exn "TypeError: unexpected keyword argument"

/-- The dict returned by `check_product_availability` (`tools.py` lines
351–377). -/
def availabilityVal (p : Product) : PyVal :=
  PyVal.obj
    [("available", PyVal.bool (decide (p.stock_quantity > 0))),
     ("stock_quantity", PyVal.int p.stock_quantity),
     ("product_name", PyVal.str p.name),
     ("sku", (p.sku.map PyVal.str).getD PyVal.none)]

/-- Handler `ToolsService.check_product_availability` (`tools.py` lines
351–377).  Keyword-binding failures raise `TypeError` at the call site
(an `exn` outcome, caught by `execute_tool`); an exception inside the
body is caught by the handler's own `except`, which returns the fixed
error dict. -/
def check_product_availability (args : Args) : ToolOutcome :=
  if args.keys ⊆ ({"product_id", "tenant_id", "db"} : Finset String) then
    match args.lookup "product_id", args.lookup "tenant_id", args.lookup "db" with
    | some pid, some tid, some (PyVal.db d) =>
        match dbFirstProduct d pid tid with
        | some p => ToolOutcome.ok (availabilityVal p)
        | Option.none => ToolOutcome.ok (PyVal.obj
            [("available", PyVal.bool false), ("message", PyVal.str "Product not found")])
    | some _, some _, some _ => ToolOutcome.ok (PyVal.obj
        [("available", PyVal.bool false), ("message", PyVal.str "Error checking availability")])
    | _, _, _ => ToolOutcome.exn "TypeError: missing required argument"
  else ToolOutcome.exn "TypeError: unexpected keyword argument"

/-- The `self.available_tools` registry built in `ToolsService.__init__`
(`tools.py` lines 15–21).  The three handlers that consult the external
embedding provider and the vector index are parameters. -/
def availableTools (sk sp spc : Handler) : String → Option Handler :=
  fun n =>
    if n = "search_knowledge" then some sk
    else if n = "search_products" then some sp
    else if n = "get_product_details" then some get_product_details
    else if n = "search_products_by_category" then some spc
    else if n = "check_product_availability" then some check_product_availability
    else Option.none

/-- `ToolsService.execute_tool` (`tools.py` lines 140–161): unknown name
returns the not-found error dict; otherwise the authenticated tenant id
and the session are written into the argument dict
(`arguments["tenant_id"] = tenant_id; arguments["db"] = db`) and the
handler is invoked on it; a raised exception is caught and becomes an
error result. -/
def execute_tool (tools : String → Option Handler) (tool_name : String)
    (arguments : Args) (tenant_id : String) (d : Db) : ToolResult :=
  match tools tool_name with
  | Option.none => ToolResult.error ("Tool \x27" ++ tool_name ++ "\x27 not found")
  | some h =>
      let args1 := (arguments.insert "tenant_id" (PyVal.str tenant_id)).insert "db" (PyVal.db d)
      match h args1 with
      | ToolOutcome.ok v => ToolResult.success v
      | ToolOutcome.exn m => ToolResult.error m

/-! ### Declared parameter schemas and conformance

`ToolsService.get_tool_definitions` (`tools.py` lines 23–138) declares a
JSON schema per tool.  Conformance of an argument dict to such a schema:
every `required` key is present, and every declared property, when
present, has the declared JSON type (JSON schema's default
`additionalProperties: true` leaves extra keys unconstrained). -/

/-- JSON types occurring in the declared tool parameter schemas. -/
inductive JsonTy where
  | string
  | integer
  | number

/-- A declared parameter schema: typed properties plus required names. -/
structure ParamSchema where
  properties : List (String × JsonTy)
  required : List String

/-- Does a value have the given JSON type? -/
def tyMatches : JsonTy → PyVal → Bool
  | JsonTy.string, PyVal.str _ => true
  | JsonTy.integer, PyVal.int _ => true
  | JsonTy.number, PyVal.num _ => true
  | JsonTy.number, PyVal.int _ => true
  | _, _ => false

/-- Schema conformance of an argument dict. -/
def conforms (sch : ParamSchema) (args : Args) : Bool :=
  sch.required.all (fun r => decide (r ∈ args)) &&
  sch.properties.all fun (k, ty) =>
    match args.lookup k with
    | some v => tyMatches ty v
    | Option.none => true

/-- The parameter schemas declared by `get_tool_definitions`, keyed by
tool name (`tools.py` lines 23–138). -/
def toolSchema : String → Option ParamSchema
  | "search_knowledge" => some ⟨[("query", JsonTy.string), ("limit", JsonTy.integer)], ["query"]⟩
  | "search_products" => some ⟨[("query", JsonTy.string), ("category", JsonTy.string),
      ("min_price", JsonTy.number), ("max_price", JsonTy.number),
      ("limit", JsonTy.integer)], ["query"]⟩
  | "get_product_details" => some ⟨[("product_id", JsonTy.string)], ["product_id"]⟩
  | "search_products_by_category" => some ⟨[("category", JsonTy.string),
      ("limit", JsonTy.integer)], ["category"]⟩
  | "check_product_availability" => some ⟨[("product_id", JsonTy.string)], ["product_id"]⟩
  | _ => Option.none

/-! ## Vector index — `app/services/vector_store.py`

`VectorStore.search_knowledge` (lines 282–325) embeds the query text,
queries the tenant's ChromaDB collection through `search_documents`
(lines 126–154) and post-processes the backend answer: per hit,
`similarity = 1 − distance`, hits with `similarity < min_score` are
dropped, the rest are kept in backend order.  The embedding call and the
ChromaDB query are external I/O; the backend's answer is the
`DocSearchResult` parameter here, and distances are carried as exact
rationals (only `1 − d` and order comparisons occur). -/

/-- The dict returned by `search_documents`: parallel lists of ids,
document texts, metadata dicts and distances for one query. -/
structure DocSearchResult where
  ids : List String
  documents : List String
  metadatas : List (List (String × String))
  distances : List ℚ

/-- Python `dict.get(k, default)` on a metadata dict. -/
def dictGet (m : List (String × String)) (k dflt : String) : String :=
  match m.find? (fun kv => kv.1 = k) with
  | some kv => kv.2
  | Option.none => dflt

/-- One entry of the list returned by `VectorStore.search_knowledge`
(lines 313–319). -/
structure SearchResult where
  id : String
  vector_id : String
  content : String
  score : ℚ
  metadata : List (String × String)

/-- The `for i in range(len(results["ids"]))` loop of
`VectorStore.search_knowledge` (lines 306–319), iterating over the
index/id pairs `(i, ids[i])`.  List indexing can raise `IndexError` (the
parallel lists could disagree in length); `Option.none` models that
exception, which the surrounding `except` turns into an empty result.
The `metadatas` access is guarded by `i < len(...)` in the source,
defaulting to `{}`. -/
def searchKnowledgeGo (res : DocSearchResult) (min_score : ℚ) :
    List (Nat × String) → Option (List SearchResult)
  | [] => some []
  | (i, idv) :: rest =>
      match res.distances[i]? with
      | Option.none => Option.none
      | some dist =>
          let similarity := 1 - dist
          if min_score ≤ similarity then
            let metadata := (res.metadatas[i]?).getD []
            match res.documents[i]? with
            | Option.none => Option.none
            | some doc =>
                match searchKnowledgeGo res min_score rest with
                | Option.none => Option.none
                | some out =>
                    some ({ id := dictGet metadata "knowledge_id" idv,
                            vector_id := idv,
                            content := doc,
                            score := similarity,
                            metadata := metadata } :: out)
          else searchKnowledgeGo res min_score rest

/-- `VectorStore.search_knowledge`'s post-processing of the backend
answer (lines 304–325): run the filter loop over the indices of
`results["ids"]`; any exception yields `[]`. -/
def search_knowledge_results (res : DocSearchResult) (min_score : ℚ) : List SearchResult :=
  (searchKnowledgeGo res min_score res.ids.enum).getD []

/-! ## Token truncation — `app/services/openai_service.py`

`OpenAIService.truncate_messages` (lines 130–149) keeps the leading
system message, then walks the remaining messages newest-first, stopping
at the first message that would push the estimated token total over the
budget, and inserts each kept message at the Python index
`-len(truncated_messages) if truncated_messages else 0`. -/

/-- A chat message as handled by `truncate_messages`. -/
structure ChatMsg where
  role : String
  content : String

/-- `OpenAIService.get_token_count` (lines 125–128): `len(text) // 4`. -/
def get_token_count (text : String) : Nat :=
  text.length / 4

/-- Normalise a Python `list.insert` index for a list of length `len`:
a negative index counts from the end and is clamped at `0`; a
non-negative one is clamped at `len`. -/
def pyInsertIdx (len : Nat) (i : Int) : Nat :=
  if i < 0 then ((len : Int) + i).toNat else min i.toNat len

/-- Python `list.insert(i, x)` with Python index semantics. -/
def pyInsert (l : List α) (i : Int) (x : α) : List α :=
  List.insertIdx (pyInsertIdx l.length i) x l

/-- The `for message in reversed(messages)` loop of `truncate_messages`
(lines 142–147): `ms` is the not-yet-visited reversed tail, `acc` the
`truncated_messages` list, `total` the running token count.  The `break`
stops the whole loop at the first over-budget message. -/
def truncGo (max_tokens : Nat) : List ChatMsg → List ChatMsg → Nat → List ChatMsg
  | [], acc, _ => acc
  | m :: ms, acc, total =>
      let t := get_token_count m.content
      if max_tokens < total + t then acc
      else truncGo max_tokens ms
        (pyInsert acc (if acc.isEmpty then 0 else -(acc.length : Int)) m) (total + t)

/-- `OpenAIService.truncate_messages` (lines 130–149); `max_tokens`
defaults to 16000 in the source. -/
def truncate_messages (messages : List ChatMsg) (max_tokens : Nat := 16000) : List ChatMsg :=
  match messages with
  | m :: tail =>
      if m.role = "system" then
        truncGo max_tokens tail.reverse [m] (get_token_count m.content)
      else truncGo max_tokens messages.reverse [] 0
  | [] => truncGo max_tokens [] [] 0

/-! ## Streaming orchestrator — `app/api/chat.py`

`generate_response` (lines 160–275) drives one chat exchange: persist
the user turn, stream the first completion, accumulate content and
tool-call fragments, on `finish_reason == "tool_calls"` dispatch the
buffered fragments and stream a follow-up completion, then persist one
assistant turn and emit a terminal event.

The two provider streams are inputs (`List StreamItem`); a `.raise` item
models the provider/iteration raising at that point, which the
function's `except` turns into a terminal error event.  The tool-result
messages built by `process_tool_calls` feed only the follow-up provider
call, which is itself an input here; what the model records of dispatch
is the `(function.name, function.arguments)` pair that
`process_tool_calls` extracts from each buffered fragment and hands to
`json.loads` / `execute_tool`. -/

/-- The `function` part of a streamed tool-call delta: `name` is present
only on the fragment that opens a call; `arguments` is the partial JSON
piece carried by this delta. -/
structure ToolFunction where
  name : Option String
  arguments : String

/-- One element of a `delta.tool_calls` list. -/
structure ToolCallFragment where
  id : Option String
  index : Nat
  function : ToolFunction

/-- The dict yielded per delta by `OpenAIService.chat_completion_stream`
(lines 108–119): `content` is `""` when the delta has none, `tool_calls`
is `[]` when absent (both are falsy, like the source's `None`). -/
structure StreamChunk where
  content : String
  tool_calls : List ToolCallFragment
  finish_reason : Option String

/-- One step of iterating a provider stream: a yielded chunk, or the
iteration raising an exception with the given message. -/
inductive StreamItem where
  | chunk (c : StreamChunk)
  | raise (msg : String)

/-- A server-sent event emitted by `generate_response` (its
`yield f"data: ..."` lines), by payload type. -/
inductive Event where
  | conversationId (s : String)
  | content (s : String)
  | toolCalls (s : String)
  | done (s : String)
  | error (s : String)

/-- A persisted conversation turn as written by `ChatService.save_message`
(lines 91–107): role, content, and the optional `{"tool_calls": ...}`
metadata dict. -/
structure Turn where
  role : String
  content : String
  metadata : Option (List ToolCallFragment)

/-- What `ChatService.process_tool_calls` (lines 109–145) extracts from
each buffered entry and hands to `json.loads` and `execute_tool`: the
per-entry `(tool_call.function.name, tool_call.function.arguments)`
pair.  Each buffered entry is processed independently, in buffer order. -/
def dispatch_inputs (buffer : List ToolCallFragment) : List (Option String × String) :=
  buffer.map fun tc => (tc.function.name, tc.function.arguments)

/-- The inner `async for follow_chunk in ...` loop (lines 244–255):
append content to the assistant buffer, emit a content event for each
non-empty fragment, break on `finish_reason in ["stop", "length"]`.
Returns the updated buffer and events, and the exception message if the
stream raised. -/
def followLoop : List StreamItem → String → List Event → String × List Event × Option String
  | [], acc, evs => (acc, evs, Option.none)
  | StreamItem.raise m :: _, acc, evs => (acc, evs, some m)
  | StreamItem.chunk c :: rest, acc, evs =>
      let acc' := acc ++ c.content
      let evs' := if c.content = "" then evs else evs ++ [Event.content c.content]
      if c.finish_reason = some "stop" ∨ c.finish_reason = some "length" then
        (acc', evs', Option.none)
      else followLoop rest acc' evs'

/-- The outer `async for chunk in ...` loop (lines 210–260): append
content, extend `tool_calls_buffer` with every delivered fragment list
(a flat `extend`, lines 220–221), and react to the finish reason.  On
`"tool_calls"` it emits the tool-status event, dispatches the buffer and
runs the follow-up loop; on `"stop"`/`"length"` it breaks.  Returns the
assistant buffer, the tool-call buffer, the events, the exception
message if a stream raised, and the recorded dispatch inputs. -/
def mainLoop (follow : List StreamItem) :
    List StreamItem → String → List ToolCallFragment → List Event →
    String × List ToolCallFragment × List Event × Option String × List (Option String × String)
  | [], acc, buf, evs => (acc, buf, evs, Option.none, [])
  | StreamItem.raise m :: _, acc, buf, evs => (acc, buf, evs, some m, [])
  | StreamItem.chunk c :: rest, acc, buf, evs =>
      let acc' := acc ++ c.content
      let evs' := if c.content = "" then evs else evs ++ [Event.content c.content]
      let buf' := buf ++ c.tool_calls
      if c.finish_reason = some "tool_calls" then
        let evs'' := evs' ++ [Event.toolCalls "Processing tools..."]
        let disp := dispatch_inputs buf'
        match followLoop follow acc' evs'' with
        | (acc'', evs''', err) => (acc'', buf', evs''', err, disp)
      else if c.finish_reason = some "stop" ∨ c.finish_reason = some "length" then
        (acc', buf', evs', Option.none, [])
      else mainLoop follow rest acc' buf' evs'

/-- The observable outcome of one exchange of the streaming endpoint:
the turns persisted through `save_message`, the emitted events, and the
dispatch inputs extracted by `process_tool_calls`. -/
structure ExchangeResult where
  persisted : List Turn
  events : List Event
  dispatched : List (Option String × String)

/-- `generate_response` (`chat.py` lines 160–275) over the two provider
streams: the user turn is persisted before streaming; after the loops
one assistant turn is persisted whose content is the accumulated buffer
and whose metadata carries the tool-call buffer when non-empty
(lines 262–269); a raise anywhere in a stream skips the assistant
persist and appends a terminal error event carrying `str(e)`
(lines 273–275).  The context assembly of lines 179–201 (system prompt,
history, `truncate_messages`, tool definitions) feeds only the provider
request, whose response is the `pre` stream input here; it is embedded
separately as `truncate_messages`. -/
def generate_response (conversation_id user_message : String)
    (pre follow : List StreamItem) : ExchangeResult :=
  let evs0 := [Event.conversationId conversation_id]
  match mainLoop follow pre "" [] evs0 with
  | (_, _, evs, some m, disp) =>
      { persisted := [⟨"user", user_message, Option.none⟩],
        events := evs ++ [Event.error m],
        dispatched := disp }
  | (acc, buf, evs, Option.none, disp) =>
      { persisted := [⟨"user", user_message, Option.none⟩,
                      ⟨"assistant", acc, if buf.isEmpty then Option.none else some buf⟩],
        events := evs ++ [Event.done "Stream completed"],
        dispatched := disp }

/-- A non-streaming completion result as consumed by `chat_non_stream`
(`chat.py` lines 335–342): `response["content"]` and
`response["tool_calls"]`. -/
structure Completion where
  content : Option String
  tool_calls : List ToolCallFragment

/-- `chat_non_stream` (`chat.py` lines 288–391), whose two provider
calls are the `resp` and `finalResp` inputs: persist the user turn, then
one assistant turn whose content is `response["content"] or ""` —
replaced by the follow-up completion's content when tool calls are
present — with the tool-call metadata when present (lines 342–377). -/
def chat_non_stream (user_message : String) (resp finalResp : Completion) : List Turn :=
  let assistant :=
    if resp.tool_calls.isEmpty then resp.content.getD ""
    else finalResp.content.getD ""
  [⟨"user", user_message, Option.none⟩,
   ⟨"assistant", assistant,
    if resp.tool_calls.isEmpty then Option.none else some resp.tool_calls⟩]

/-! ## Document chunker — `app/services/document_splitter.py`

`DocumentSplitter.split_document` cleans the text, detects structure,
computes split points and slices the cleaned text between consecutive
split points.  Text is `List Char`; the regex passes are embedded as
run-based scanners equivalent to CPython `re` semantics (leftmost,
non-overlapping, greedy) for the specific patterns in the source. -/

/-- Positions of `'\n'` within a character list (ascending). -/
def newlinePositions (cs : List Char) : List Nat :=
  (cs.enum.filter (fun p => p.2 = '\n')).map Prod.fst

/-- `re.sub(r'\n\s*\n\s*\n', '\n\n', content)` (`_clean_content`,
line 229).  A match must start at a `'\n'` and, `\s*` matching only
whitespace, is confined to the maximal whitespace run starting there; it
exists iff that run holds at least 3 newlines, and greediness makes it
end just after the run's last newline.  Scanning resumes after the
match, as `re.sub` does.  The scanner consumes at least one character
per step, so `fuel := cs.length` (as supplied by `cleanNewlines`) never
runs out; the fuel-exhausted clause is unreachable. -/
def cleanNewlinesGo : Nat → List Char → List Char
  | _, [] => []
  | 0, _ :: _ => []
  | fuel + 1, c :: rest =>
      if c = '\n' then
        let run := List.takeWhile pyIsSpace (c :: rest)
        let nls := newlinePositions run
        if 3 ≤ nls.length then
          match nls.getLast? with
          | some b => '\n' :: '\n' :: cleanNewlinesGo fuel ((c :: rest).drop (b + 1))
          | Option.none => c :: cleanNewlinesGo fuel rest
        else c :: cleanNewlinesGo fuel rest
      else c :: cleanNewlinesGo fuel rest

/-- The first substitution pass of `_clean_content` (line 229). -/
def cleanNewlines (cs : List Char) : List Char :=
  cleanNewlinesGo cs.length cs

/-- `re.sub(r' +', ' ', content)` (`_clean_content`, line 230): collapse
each run of spaces to a single space, dropping every space directly
followed by another. -/
def collapseSpaces : List Char → List Char
  | [] => []
  | [c] => [c]
  | c :: c' :: rest =>
      if c = ' ' ∧ c' = ' ' then collapseSpaces (c' :: rest)
      else c :: collapseSpaces (c' :: rest)

/-- `DocumentSplitter._clean_content` (lines 226–233): collapse 3+
newline runs to 2, collapse space runs, strip. -/
def _clean_content (cs : List Char) : List Char :=
  pyStrip (collapseSpaces (cleanNewlines cs))

/-- `re.finditer(r'\n\s*\n', text)` start positions (paragraph
boundaries, `detect_document_structure` lines 70–71).  A match starts at
a `'\n'` whose maximal whitespace run holds a second newline and,
greedily, ends just after the run's last newline.  Fuelled like
`cleanNewlinesGo`; at least one character is consumed per step. -/
def scanParagraphsGo : Nat → List Char → Nat → List Nat
  | _, [], _ => []
  | 0, _ :: _, _ => []
  | fuel + 1, c :: rest, pos =>
      if c = '\n' then
        let run := List.takeWhile pyIsSpace (c :: rest)
        let nls := newlinePositions run
        if 2 ≤ nls.length then
          match nls.getLast? with
          | some b => pos :: scanParagraphsGo fuel ((c :: rest).drop (b + 1)) (pos + b + 1)
          | Option.none => scanParagraphsGo fuel rest (pos + 1)
        else scanParagraphsGo fuel rest (pos + 1)
      else scanParagraphsGo fuel rest (pos + 1)

/-- Paragraph-boundary start offsets of `text`. -/
def scanParagraphs (cs : List Char) : List Nat :=
  scanParagraphsGo cs.length cs 0

/-- `.`, `!` or `?` — the class `[.!?]`. -/
def isPunct (c : Char) : Bool :=
  c = '.' || c = '!' || c = '?'

/-- `re.finditer(r'[.!?]+\s+', text)` end positions (sentence
boundaries, `detect_document_structure` lines 73–75): a maximal
punctuation run followed by at least one whitespace character; the
greedy match ends after the maximal whitespace run.  Fuelled like
`cleanNewlinesGo`; at least one character is consumed per step. -/
def scanSentencesGo : Nat → List Char → Nat → List Nat
  | _, [], _ => []
  | 0, _ :: _, _ => []
  | fuel + 1, c :: rest, pos =>
      if isPunct c then
        let punct := List.takeWhile isPunct (c :: rest)
        let ws := List.takeWhile pyIsSpace ((c :: rest).drop punct.length)
        if 1 ≤ ws.length then
          (pos + (punct.length + ws.length)) ::
            scanSentencesGo fuel ((c :: rest).drop (punct.length + ws.length))
              (pos + (punct.length + ws.length))
        else scanSentencesGo fuel rest (pos + 1)
      else scanSentencesGo fuel rest (pos + 1)

/-- Sentence-boundary end offsets of `text`. -/
def scanSentences (cs : List Char) : List Nat :=
  scanSentencesGo cs.length cs 0

/-- The structural offsets consumed by the split-point search
(`detect_document_structure`, lines 29–77).  The source also records
header, code-block and list offsets, but the splitter reads only
`structure['paragraphs']` and `structure['sentences']`; no claim
concerns the others, so they are not carried. -/
structure DocStructure where
  paragraphs : List Nat
  sentences : List Nat

/-- `DocumentSplitter.detect_document_structure` restricted to the two
offset categories the splitter consumes. -/
def detect_document_structure (cs : List Char) : DocStructure :=
  { paragraphs := scanParagraphs cs, sentences := scanSentences cs }

/-- The descending candidate indices of the word-boundary fallback,
`range(target_end, max(start, target_end - search_window), -1)`
(`_find_best_split_point` line 135). -/
def wordCandidates (start target_end w : Nat) : List Nat :=
  (List.range' (max start (target_end - w) + 1) (target_end - max start (target_end - w))).reverse

/-- `DocumentSplitter._find_best_split_point` (lines 113–140): prefer
the last paragraph boundary in the window, then the last sentence
boundary, then the nearest whitespace, else cut at `target_end`.
Python's possibly negative `target_end - search_window` lower bound is
truncated at 0, which leaves the comparisons unchanged. -/
def _find_best_split_point (cs : List Char) (start target_end : Nat)
    (st : DocStructure) : Nat :=
  let w := min 200 ((target_end - start) / 4)
  match st.paragraphs.reverse.find?
      (fun pos => decide (target_end - w ≤ pos) && decide (pos ≤ target_end)) with
  | some pos => pos
  | Option.none =>
  match st.sentences.reverse.find?
      (fun pos => decide (target_end - w ≤ pos) && decide (pos ≤ target_end)) with
  | some pos => pos
  | Option.none =>
  match (wordCandidates start target_end w).find?
      (fun i => decide (i < cs.length) && pyIsSpace (cs.getD i ' ')) with
  | some i => i
  | Option.none => target_end

/-- The cursor update of the split loop (`find_optimal_split_points`
line 109): `current_pos = max(best_split - overlap, current_pos + 1)`.
In Python a negative `best_split - overlap` loses to `current_pos + 1`,
exactly as the truncated Nat subtraction does. -/
def next_cursor (chosen_split overlap prev : Nat) : Nat :=
  max (chosen_split - overlap) (prev + 1)

/-- The `while current_pos < text_length` loop of
`find_optimal_split_points` (lines 92–110).  The cursor strictly
increases each iteration (see `next_cursor`) while staying below
`cs.length`, so the loop runs at most `cs.length` times and
`fuel := cs.length` (as supplied by `find_optimal_split_points`) never
runs out; the fuel-exhausted clause is unreachable, and fuel-irrelevance
is proved below as the termination theorem. -/
def splitPointsAux (cs : List Char) (mcs overlap : Nat) (st : DocStructure) :
    Nat → Nat → List Nat
  | 0, _ => []
  | fuel + 1, cur =>
      if cur < cs.length then
        let target := min (cur + mcs) cs.length
        if cs.length ≤ target then [cs.length]
        else
          let b := _find_best_split_point cs cur target st
          b :: splitPointsAux cs mcs overlap st fuel (next_cursor b overlap cur)
      else []

/-- `DocumentSplitter.find_optimal_split_points` (lines 79–111):
`split_points = [0]` followed by the points the loop appends. -/
def find_optimal_split_points (cs : List Char) (mcs overlap : Nat)
    (st : DocStructure) : List Nat :=
  0 :: splitPointsAux cs mcs overlap st cs.length 0

/-- A chunk as assembled by `split_document`, restricted to the fields
the claims concern: content, ordinal index, total count, the metadata
offsets/lengths/overlap (lines 204–211), and the single-chunk complete
flag.  Chunk titles (and the pass-through source/document-type fields)
are not carried: no claim concerns them. -/
structure DocumentChunk where
  content : List Char
  chunk_index : Nat
  total_chunks : Nat
  chunk_start : Nat
  chunk_end : Nat
  original_length : Nat
  chunk_length : Nat
  overlap_with_previous : Nat
  is_complete_document : Bool

/-- The `for i in range(len(split_points) - 1)` loop of `split_document`
(lines 189–221): slice between consecutive split points, strip, skip
empty chunks (retaining the loop index as `chunk_index`), and record the
metadata, with `overlap_with_previous` the nominal `chunk_overlap` for
every chunk but the first. -/
def buildChunks (cs : List Char) (ov total orig : Nat) :
    Nat → List Nat → List DocumentChunk
  | _, [] => []
  | _, [_] => []
  | i, p :: q :: rest =>
      let c := pyStrip (pySlice cs p q)
      if c.isEmpty then buildChunks cs ov total orig (i + 1) (q :: rest)
      else
        { content := c,
          chunk_index := i,
          total_chunks := total,
          chunk_start := p,
          chunk_end := q,
          original_length := orig,
          chunk_length := c.length,
          overlap_with_previous := if 0 < i then ov else 0,
          is_complete_document := false } :: buildChunks cs ov total orig (i + 1) (q :: rest)

/-- `DocumentSplitter.split_document` (lines 142–224) for
`preserve_structure=True` (the default; the `False` path would crash on
a missing `structure` key before producing chunks, and no claim
concerns it): empty/whitespace input gives `[]`; a cleaned text within
the budget gives the single complete-document chunk (whose metadata in
the source has no offset entries — the offsets `0`/`len` recorded here
are the trivial span of that whole-document chunk); otherwise chunks
are built between the computed split points. -/
def split_document (content : List Char) (max_chunk_size chunk_overlap : Nat) :
    List DocumentChunk :=
  if (pyStrip content).isEmpty then []
  else
    let cleaned := _clean_content content
    if cleaned.length ≤ max_chunk_size then
      [{ content := cleaned,
         chunk_index := 0,
         total_chunks := 1,
         chunk_start := 0,
         chunk_end := cleaned.length,
         original_length := cleaned.length,
         chunk_length := cleaned.length,
         overlap_with_previous := 0,
         is_complete_document := true }]
    else
      let st := detect_document_structure cleaned
      let pts := find_optimal_split_points cleaned max_chunk_size chunk_overlap st
      buildChunks cleaned chunk_overlap (pts.length - 1) cleaned.length 0 pts

/-! ### Spec-side reconstruction definitions (for claim C4)

These two definitions follow the specification's words, not the source:
they express "concatenating the chunks' contents in order, with each
chunk's overlap with its predecessor removed" and the sliced
reconstruction they are compared against. -/

/-- Reconstruction as the specification describes it: concatenate chunk
contents in order after dropping, from every chunk but the first, the
`overlap_with_previous` characters it records. -/
def reconstructWithOverlapRemoved (chunks : List DocumentChunk) : List Char :=
  match chunks with
  | [] => []
  | c0 :: rest => c0.content ++ (rest.map (fun c => c.content.drop c.overlap_with_previous)).flatten

/-- Consecutive pairs of a list: `[p₀,p₁,p₂,…] ↦ [(p₀,p₁),(p₁,p₂),…]`. -/
def consecutivePairs : List Nat → List (Nat × Nat)
  | p :: q :: rest => (p, q) :: consecutivePairs (q :: rest)
  | _ => []

/-- Concatenation of the raw (unstripped) slices of `cs` between
consecutive split points. -/
def sliceJoin (cs : List Char) (pts : List Nat) : List Char :=
  ((consecutivePairs pts).map (fun pr => pySlice cs pr.1 pr.2)).flatten

/-! ## Spec-side stream accumulators (for claim C2)

Definitions following the (amended) specification's words: the text a
stream contributes before its first finish signal, whether that signal
is `"tool_calls"`, the fragments accumulated up to it, and the follow-up
stream's text.  They are compared with the orchestrator embedding. -/

/-- No element of the stream is a raised exception. -/
def noRaise (items : List StreamItem) : Prop :=
  ∀ m, StreamItem.raise m ∉ items

/-- Spec-side: the concatenated content fragments of a stream up to and
including its first chunk with a terminating finish reason. -/
def specPreText : List StreamItem → String
  | [] => ""
  | StreamItem.raise _ :: _ => ""
  | StreamItem.chunk c :: rest =>
      if c.finish_reason = some "tool_calls" ∨ c.finish_reason = some "stop" ∨
          c.finish_reason = some "length" then c.content
      else c.content ++ specPreText rest

/-- Spec-side: whether the stream's first terminating finish reason is
`"tool_calls"`. -/
def specToolCallsFired : List StreamItem → Bool
  | [] => false
  | StreamItem.raise _ :: _ => false
  | StreamItem.chunk c :: rest =>
      if c.finish_reason = some "tool_calls" then true
      else if c.finish_reason = some "stop" ∨ c.finish_reason = some "length" then false
      else specToolCallsFired rest

/-- Spec-side: the tool-call fragments delivered up to and including the
stream's first chunk with a terminating finish reason. -/
def specBuffer : List StreamItem → List ToolCallFragment
  | [] => []
  | StreamItem.raise _ :: _ => []
  | StreamItem.chunk c :: rest =>
      if c.finish_reason = some "tool_calls" ∨ c.finish_reason = some "stop" ∨
          c.finish_reason = some "length" then c.tool_calls
      else c.tool_calls ++ specBuffer rest

/-- Spec-side: the concatenated content of the follow-up stream up to
and including its first `"stop"`/`"length"` chunk. -/
def specFollowText : List StreamItem → String
  | [] => ""
  | StreamItem.raise _ :: _ => ""
  | StreamItem.chunk c :: rest =>
      if c.finish_reason = some "stop" ∨ c.finish_reason = some "length" then c.content
      else c.content ++ specFollowText rest

/-! # Theorems -/

/-! ## Claim C3 — token-budget truncation -/

/-- Claim C3 (code bug): the claim says truncation returns the system
turn first, followed by the surviving turns in chronological order.  On
the embedded `truncate_messages`, the insertion index
`-len(truncated_messages) if truncated_messages else 0` always
normalises to position 0, so every kept message is inserted *before*
the previously kept ones — and before the system turn seeded into the
list — leaving the system turn *last*.  Concretely, a fully in-budget
history `[system, user, assistant]` comes back as
`[user, assistant, system]`. -/
theorem truncate_messages_places_system_turn_last :
    truncate_messages [⟨"system", "abc"⟩, ⟨"user", "u1"⟩, ⟨"assistant", "a1"⟩] 16000 =
      [⟨"user", "u1"⟩, ⟨"assistant", "a1"⟩, ⟨"system", "abc"⟩] := by
  rfl

/-! ## Claim C7 — unknown tool name -/

/-- Claim C7: dispatching a tool name absent from the registry returns
an error result (`{"error": "Tool '<name>' not found"}`), and the
dispatcher — a total function here, its `try/except` catching every
handler exception — never raises past its boundary: the caller always
receives a `ToolResult`. -/
theorem execute_tool_unknown_name_returns_error (sk sp spc : Handler) (name : String)
    (args : Args) (tenant : String) (d : Db)
    (h : availableTools sk sp spc name = Option.none) :
    execute_tool (availableTools sk sp spc) name args tenant d =
      ToolResult.error ("Tool \x27" ++ name ++ "\x27 not found") := by
  unfold execute_tool
  rw [h]

/-- Witness for C7 at the unregistered name `"delete_everything"`. -/
theorem execute_tool_unknown_name_returns_error_witness :
    availableTools (fun _ => ToolOutcome.exn "ext") (fun _ => ToolOutcome.exn "ext")
        (fun _ => ToolOutcome.exn "ext") "delete_everything" = Option.none ∧
    execute_tool
        (availableTools (fun _ => ToolOutcome.exn "ext") (fun _ => ToolOutcome.exn "ext")
          (fun _ => ToolOutcome.exn "ext"))
        "delete_everything" ∅ "tenant-1" ⟨[]⟩ =
      ToolResult.error ("Tool \x27delete_everything\x27 not found") :=
  ⟨rfl, execute_tool_unknown_name_returns_error _ _ _ "delete_everything" ∅ "tenant-1" ⟨[]⟩ rfl⟩

/-! ## Claim C8 — terminal error event -/

/-- Claim C8, counterexample: the claim says the internal exception
detail is never forwarded verbatim in the emitted error event.  But the
orchestrator's handler yields `{'type': 'error', 'data': str(e)}`
(`chat.py` line 275): for a provider failure whose message carries
internal detail, the terminal event's payload is that exact string. -/
theorem error_detail_forwarded_verbatim_refuted :
    (generate_response "c1" "hi"
        [StreamItem.raise "OperationalError: password authentication failed for user on host db-internal"]
        []).events.getLast? =
      some (Event.error
        "OperationalError: password authentication failed for user on host db-internal") := by
  rfl

/-- Claim C8 as amended: on any unhandled stream failure the
orchestrator emits, as its final event, a terminal error event whose
payload is the exception's message *verbatim* (the same string that is
logged), and the assistant turn is not persisted — only the user turn,
written before streaming began, remains. -/
theorem generate_response_error_event (cid um : String) (pre follow : List StreamItem)
    (acc : String) (buf : List ToolCallFragment) (evs : List Event) (m : String)
    (disp : List (Option String × String))
    (h : mainLoop follow pre "" [] [Event.conversationId cid] = (acc, buf, evs, some m, disp)) :
    (generate_response cid um pre follow).events = evs ++ [Event.error m] ∧
    (generate_response cid um pre follow).persisted = [⟨"user", um, Option.none⟩] := by
  unfold generate_response
  simp [h]

/-- Witness for C8's amended theorem: a provider raise before any delta. -/
theorem generate_response_error_event_witness :
    mainLoop [] [StreamItem.raise "boom"] "" [] [Event.conversationId "c"] =
      ("", [], [Event.conversationId "c"], some "boom", []) ∧
    (generate_response "c" "u" [StreamItem.raise "boom"] []).events =
      [Event.conversationId "c"] ++ [Event.error "boom"] ∧
    (generate_response "c" "u" [StreamItem.raise "boom"] []).persisted =
      [⟨"user", "u", Option.none⟩] :=
  ⟨rfl, (generate_response_error_event "c" "u" [StreamItem.raise "boom"] [] "" []
      [Event.conversationId "c"] "boom" [] rfl).1,
    (generate_response_error_event "c" "u" [StreamItem.raise "boom"] [] "" []
      [Event.conversationId "c"] "boom" [] rfl).2⟩

/-! ## Claim C6 — argument schema validation -/

/-- Claim C6, counterexample: the claim says a registered tool invoked
with arguments that do not conform to its declared parameter schema gets
an `ok:false` validation error, its handler never invoked.  The embedded
`execute_tool` contains no schema check: with
`{"product_id": 42}` — an integer where `get_product_details`'s declared
schema requires a string — the handler is invoked (its database lookup
runs and finds nothing) and the dispatcher returns the *success* result
`{"success": True, "data": None}`, not a validation error. -/
theorem execute_tool_schema_validation_refuted :
    toolSchema "get_product_details" = some ⟨[("product_id", JsonTy.string)], ["product_id"]⟩ ∧
    conforms ⟨[("product_id", JsonTy.string)], ["product_id"]⟩
        ((∅ : Args).insert "product_id" (PyVal.int 42)) = false ∧
    execute_tool
        (availableTools (fun _ => ToolOutcome.exn "ext") (fun _ => ToolOutcome.exn "ext")
          (fun _ => ToolOutcome.exn "ext"))
        "get_product_details" ((∅ : Args).insert "product_id" (PyVal.int 42)) "tenant-1" ⟨[]⟩ =
      ToolResult.success PyVal.none :=
  ⟨rfl, by decide, rfl⟩

/-- Claim C6 as amended: the dispatcher performs no schema validation.
For every registered tool and every argument dict — in particular one
that does *not* conform to the tool's declared parameter schema — the
handler is invoked on the dict with the tenant context written in, and
its outcome (returned value, or caught exception message) is what the
dispatcher returns; no validation error is interposed before
invocation. -/
theorem execute_tool_invokes_handler_without_validation
    (sk sp spc : Handler) (name : String) (hF : Handler) (sch : ParamSchema)
    (args : Args) (tenant : String) (d : Db)
    (hreg : availableTools sk sp spc name = some hF)
    (_hsch : toolSchema name = some sch)
    (_hnc : conforms sch args = false) :
    execute_tool (availableTools sk sp spc) name args tenant d =
      (match hF ((args.insert "tenant_id" (PyVal.str tenant)).insert "db" (PyVal.db d)) with
       | ToolOutcome.ok v => ToolResult.success v
       | ToolOutcome.exn m => ToolResult.error m) := by
  unfold execute_tool
  rw [hreg]

/-- Witness for C6's amended theorem: `get_product_details` with the
schema-violating `{"product_id": 42}` is still executed and answers with
a success result. -/
theorem execute_tool_invokes_handler_without_validation_witness :
    availableTools (fun _ => ToolOutcome.exn "ext") (fun _ => ToolOutcome.exn "ext")
        (fun _ => ToolOutcome.exn "ext") "get_product_details" = some get_product_details ∧
    conforms ⟨[("product_id", JsonTy.string)], ["product_id"]⟩
        ((∅ : Args).insert "product_id" (PyVal.int 42)) = false ∧
    execute_tool
        (availableTools (fun _ => ToolOutcome.exn "ext") (fun _ => ToolOutcome.exn "ext")
          (fun _ => ToolOutcome.exn "ext"))
        "get_product_details" ((∅ : Args).insert "product_id" (PyVal.int 42)) "t2" ⟨[]⟩ =
      (match get_product_details
          ((((∅ : Args).insert "product_id" (PyVal.int 42)).insert "tenant_id"
              (PyVal.str "t2")).insert "db" (PyVal.db ⟨[]⟩)) with
       | ToolOutcome.ok v => ToolResult.success v
       | ToolOutcome.exn m => ToolResult.error m) :=
  ⟨rfl, by decide,
    execute_tool_invokes_handler_without_validation _ _ _ "get_product_details"
      get_product_details ⟨[("product_id", JsonTy.string)], ["product_id"]⟩
      ((∅ : Args).insert "product_id" (PyVal.int 42)) "t2" ⟨[]⟩ rfl rfl (by decide)⟩

/-! ## Claim C10 — tenant noninterference of tool arguments -/

/-- Claim C10: tool execution is noninterfering with caller-supplied
tenant identity.  `execute_tool` overwrites the `"tenant_id"` and
`"db"` entries of the argument dict with the authenticated context
before any handler runs, so two argument dicts that agree outside those
two keys produce identical results — a tool call cannot address another
tenant's data through its arguments. -/
theorem execute_tool_tenant_noninterference (sk sp spc : Handler) (name : String)
    (args1 args2 : Args) (tenant : String) (d : Db)
    (h : ∀ k, k ≠ "tenant_id" → k ≠ "db" → args1.lookup k = args2.lookup k) :
    execute_tool (availableTools sk sp spc) name args1 tenant d =
      execute_tool (availableTools sk sp spc) name args2 tenant d := by
  have key : (args1.insert "tenant_id" (PyVal.str tenant)).insert "db" (PyVal.db d) =
      (args2.insert "tenant_id" (PyVal.str tenant)).insert "db" (PyVal.db d) := by
    apply Finmap.ext_lookup
    intro k
    by_cases hdb : k = "db"
    · subst hdb
      rw [Finmap.lookup_insert, Finmap.lookup_insert]
    · rw [Finmap.lookup_insert_of_ne _ hdb, Finmap.lookup_insert_of_ne _ hdb]
      by_cases ht : k = "tenant_id"
      · subst ht
        rw [Finmap.lookup_insert, Finmap.lookup_insert]
      · rw [Finmap.lookup_insert_of_ne _ ht, Finmap.lookup_insert_of_ne _ ht]
        exact h k ht hdb
  unfold execute_tool
  cases availableTools sk sp spc name with
  | none => rfl
  | some hF => simp only [key]

/-- Witness for C10: an argument dict smuggling
`"tenant_id": "intruder"` gives the same result as one without it. -/
theorem execute_tool_tenant_noninterference_witness :
    (∀ k, k ≠ "tenant_id" → k ≠ "db" →
      ((∅ : Args).insert "tenant_id" (PyVal.str "intruder")).lookup k = (∅ : Args).lookup k) ∧
    execute_tool
        (availableTools (fun _ => ToolOutcome.exn "ext") (fun _ => ToolOutcome.exn "ext")
          (fun _ => ToolOutcome.exn "ext"))
        "get_product_details" ((∅ : Args).insert "tenant_id" (PyVal.str "intruder")) "T" ⟨[]⟩ =
      execute_tool
        (availableTools (fun _ => ToolOutcome.exn "ext") (fun _ => ToolOutcome.exn "ext")
          (fun _ => ToolOutcome.exn "ext"))
        "get_product_details" (∅ : Args) "T" ⟨[]⟩ :=
  ⟨fun k hk _ => by rw [Finmap.lookup_insert_of_ne _ hk],
    execute_tool_tenant_noninterference _ _ _ "get_product_details"
      ((∅ : Args).insert "tenant_id" (PyVal.str "intruder")) ∅ "T" ⟨[]⟩
      (fun k hk _ => by rw [Finmap.lookup_insert_of_ne _ hk])⟩

/-! ## Claim C1 — per-call-id buffering of tool-call fragments -/

/-- Claim C1 (code bug): the claim says tool-call fragments are
buffered per call id, concatenated in arrival order, and parsed once
after the stream finishes, so dispatch receives each call's full
argument string.  The embedded orchestrator instead extends a flat list
(`tool_calls_buffer.extend(...)`, `chat.py` line 221) and
`process_tool_calls` parses every buffered entry separately: when one
call's arguments `{"query": "wine"}` arrive split across two deltas,
dispatch receives the two partial fragments — the second with no
function name at all — and never the concatenated string. -/
theorem streamed_toolcall_fragments_dispatched_individually :
    (generate_response "c1" "find wine"
        [StreamItem.chunk ⟨"", [⟨some "call_1", 0, ⟨some "search_knowledge", "\x7b\"qu"⟩⟩],
            Option.none⟩,
         StreamItem.chunk ⟨"", [⟨Option.none, 0, ⟨Option.none, "ery\": \"wine\"\x7d"⟩⟩],
            Option.none⟩,
         StreamItem.chunk ⟨"", [], some "tool_calls"⟩]
        [StreamItem.chunk ⟨"Answer", [], some "stop"⟩]).dispatched =
      [(some "search_knowledge", "\x7b\"qu"), (Option.none, "ery\": \"wine\"\x7d")] ∧
    (generate_response "c1" "find wine"
        [StreamItem.chunk ⟨"", [⟨some "call_1", 0, ⟨some "search_knowledge", "\x7b\"qu"⟩⟩],
            Option.none⟩,
         StreamItem.chunk ⟨"", [⟨Option.none, 0, ⟨Option.none, "ery\": \"wine\"\x7d"⟩⟩],
            Option.none⟩,
         StreamItem.chunk ⟨"", [], some "tool_calls"⟩]
        [StreamItem.chunk ⟨"Answer", [], some "stop"⟩]).dispatched ≠
      [(some "search_knowledge", "\x7b\"query\": \"wine\"\x7d")] :=
  ⟨rfl, by decide⟩

/-! ## Claim C2 — persisted turns of an exchange -/

/-- Claim C2, counterexample: the claim says the persisted assistant
turn's content is only the post-tool completion text.  In the streaming
path the assistant buffer accumulates `chunk["content"]` *before* the
tool calls and keeps accumulating through the follow-up stream
(`chat.py` lines 216–217 and 250–251), so with `"Hello "` streamed
before the tool round and `"World"` after it, the persisted content is
`"Hello World"`, not `"World"`. -/
theorem assistant_turn_keeps_pretool_content_refuted :
    (generate_response "c1" "hi"
        [StreamItem.chunk ⟨"Hello ",
            [⟨some "call_1", 0, ⟨some "search_knowledge", "\x7b\"query\": \"x\"\x7d"⟩⟩],
            Option.none⟩,
         StreamItem.chunk ⟨"", [], some "tool_calls"⟩]
        [StreamItem.chunk ⟨"World", [], some "stop"⟩]).persisted =
      [⟨"user", "hi", Option.none⟩,
       ⟨"assistant", "Hello World",
        some [⟨some "call_1", 0, ⟨some "search_knowledge", "\x7b\"query\": \"x\"\x7d"⟩⟩]⟩] ∧
    "Hello World" ≠ "World" :=
  ⟨rfl, by decide⟩

/-- On a raise-free stream, the follow-up loop returns the accumulator
extended by exactly the spec-side follow text, and no error. -/
theorem followLoop_spec : ∀ (items : List StreamItem), noRaise items →
    ∀ acc evs, ∃ evs',
      followLoop items acc evs = (acc ++ specFollowText items, evs', Option.none) := by
  intro items
  induction items with
  | nil =>
      intro _ acc evs
      exact ⟨evs, by simp [followLoop, specFollowText]⟩
  | cons it rest ih =>
      intro hnr acc evs
      cases it with
      | raise m => exact absurd (List.mem_cons_self _ _) (hnr m)
      | chunk c =>
          by_cases hfin : c.finish_reason = some "stop" ∨ c.finish_reason = some "length"
          · refine ⟨if c.content = "" then evs else evs ++ [Event.content c.content], ?_⟩
            simp [followLoop, specFollowText, hfin]
          · have hnr' : noRaise rest := fun m hm => hnr m (List.mem_cons_of_mem _ hm)
            obtain ⟨evs', heq⟩ := ih hnr' (acc ++ c.content)
              (if c.content = "" then evs else evs ++ [Event.content c.content])
            refine ⟨evs', ?_⟩
            simp [followLoop, specFollowText, hfin, heq, String.append_assoc]

/-- On raise-free streams, the main loop returns the accumulators
extended by exactly the spec-side pre-tool text (plus the follow text
when the tool round fired) and the spec-side fragment buffer, with no
error. -/
theorem mainLoop_spec (follow : List StreamItem) (hfol : noRaise follow) :
    ∀ (pre : List StreamItem), noRaise pre → ∀ acc buf evs, ∃ evs' disp,
      mainLoop follow pre acc buf evs =
        (acc ++ specPreText pre ++
            (if specToolCallsFired pre then specFollowText follow else ""),
         buf ++ specBuffer pre, evs', Option.none, disp) := by
  intro pre
  induction pre with
  | nil =>
      intro _ acc buf evs
      exact ⟨evs, [], by simp [mainLoop, specPreText, specToolCallsFired, specBuffer]⟩
  | cons it rest ih =>
      intro hnr acc buf evs
      cases it with
      | raise m => exact absurd (List.mem_cons_self _ _) (hnr m)
      | chunk c =>
          by_cases htc : c.finish_reason = some "tool_calls"
          · obtain ⟨evs', heq⟩ := followLoop_spec follow hfol (acc ++ c.content)
              ((if c.content = "" then evs else evs ++ [Event.content c.content]) ++
                [Event.toolCalls "Processing tools..."])
            refine ⟨evs', dispatch_inputs (buf ++ c.tool_calls), ?_⟩
            simp [mainLoop, specPreText, specToolCallsFired, specBuffer, htc, heq,
              String.append_assoc]
          · by_cases hsl : c.finish_reason = some "stop" ∨ c.finish_reason = some "length"
            · refine ⟨(if c.content = "" then evs else evs ++ [Event.content c.content]), [], ?_⟩
              simp [mainLoop, specPreText, specToolCallsFired, specBuffer, htc, hsl]
            · have hnr' : noRaise rest := fun m hm => hnr m (List.mem_cons_of_mem _ hm)
              obtain ⟨evs', disp, heq⟩ := ih hnr' (acc ++ c.content) (buf ++ c.tool_calls)
                (if c.content = "" then evs else evs ++ [Event.content c.content])
              refine ⟨evs', disp, ?_⟩
              simp [mainLoop, specPreText, specToolCallsFired, specBuffer, htc, hsl, heq,
                String.append_assoc, List.append_assoc]

/-- Claim C2 as amended: every completed (raise-free) exchange persists
exactly one user turn and one assistant turn; when tool-call fragments
arrived, the assistant turn carries them as structured metadata.  In the
streaming path the persisted assistant content is the concatenation of
the text streamed *before* the tool round with the follow-up
completion's text (not the follow-up text alone, as originally
claimed); in the non-streaming path it is the follow-up completion's
text only. -/
theorem exchange_persists_one_user_one_assistant_turn
    (cid um : String) (pre follow : List StreamItem) (resp finalResp : Completion)
    (hp : noRaise pre) (hf : noRaise follow) :
    (generate_response cid um pre follow).persisted =
      [⟨"user", um, Option.none⟩,
       ⟨"assistant",
        specPreText pre ++ (if specToolCallsFired pre then specFollowText follow else ""),
        if (specBuffer pre).isEmpty then Option.none else some (specBuffer pre)⟩] ∧
    chat_non_stream um resp finalResp =
      [⟨"user", um, Option.none⟩,
       ⟨"assistant",
        (if resp.tool_calls.isEmpty then resp.content.getD "" else finalResp.content.getD ""),
        if resp.tool_calls.isEmpty then Option.none else some resp.tool_calls⟩] := by
  constructor
  · obtain ⟨evs', disp, heq⟩ :=
      mainLoop_spec follow hf pre hp "" [] [Event.conversationId cid]
    unfold generate_response
    simp only [heq]
    simp
  · rfl

/-- Witness for C2's amended theorem: `"Hello "` streamed before a tool
round and `"World"` after it persist as the two turns
`user "hi"` / `assistant "Hello World"` with the fragment metadata. -/
theorem exchange_persists_one_user_one_assistant_turn_witness :
    noRaise
      [StreamItem.chunk ⟨"Hello ",
          [⟨some "call_9", 0, ⟨some "check_product_availability", "\x7b\"product_id\": \"p\"\x7d"⟩⟩],
          Option.none⟩,
       StreamItem.chunk ⟨"", [], some "tool_calls"⟩] ∧
    noRaise [StreamItem.chunk ⟨"World", [], some "stop"⟩] ∧
    (generate_response "c9" "hi"
        [StreamItem.chunk ⟨"Hello ",
            [⟨some "call_9", 0, ⟨some "check_product_availability", "\x7b\"product_id\": \"p\"\x7d"⟩⟩],
            Option.none⟩,
         StreamItem.chunk ⟨"", [], some "tool_calls"⟩]
        [StreamItem.chunk ⟨"World", [], some "stop"⟩]).persisted =
      [⟨"user", "hi", Option.none⟩,
       ⟨"assistant",
        specPreText
            [StreamItem.chunk ⟨"Hello ",
                [⟨some "call_9", 0,
                  ⟨some "check_product_availability", "\x7b\"product_id\": \"p\"\x7d"⟩⟩],
                Option.none⟩,
             StreamItem.chunk ⟨"", [], some "tool_calls"⟩] ++
          (if specToolCallsFired
              [StreamItem.chunk ⟨"Hello ",
                  [⟨some "call_9", 0,
                    ⟨some "check_product_availability", "\x7b\"product_id\": \"p\"\x7d"⟩⟩],
                  Option.none⟩,
               StreamItem.chunk ⟨"", [], some "tool_calls"⟩] then
            specFollowText [StreamItem.chunk ⟨"World", [], some "stop"⟩] else ""),
        if (specBuffer
            [StreamItem.chunk ⟨"Hello ",
                [⟨some "call_9", 0,
                  ⟨some "check_product_availability", "\x7b\"product_id\": \"p\"\x7d"⟩⟩],
                Option.none⟩,
             StreamItem.chunk ⟨"", [], some "tool_calls"⟩]).isEmpty then Option.none
        else some (specBuffer
            [StreamItem.chunk ⟨"Hello ",
                [⟨some "call_9", 0,
                  ⟨some "check_product_availability", "\x7b\"product_id\": \"p\"\x7d"⟩⟩],
                Option.none⟩,
             StreamItem.chunk ⟨"", [], some "tool_calls"⟩])⟩] :=
  ⟨fun m hm => by simp at hm,
   fun m hm => by simp at hm,
   (exchange_persists_one_user_one_assistant_turn "c9" "hi" _ _ ⟨some "x", []⟩ ⟨some "y", []⟩
      (fun m hm => by simp at hm) (fun m hm => by simp at hm)).1⟩

/-! ## Claim C5 — similarity filtering and ranking -/

/-- The loop indices `enumFrom n xs` carry strictly increasing first
components. -/
theorem pairwise_fst_lt_enumFrom (xs : List α) :
    ∀ n, List.Pairwise (fun a b : Nat × α => a.1 < b.1) (List.enumFrom n xs) := by
  induction xs with
  | nil => intro n; simp
  | cons x xs ih =>
      intro n
      refine List.Pairwise.cons ?_ (ih (n + 1))
      intro p hp
      exact lt_of_lt_of_le (Nat.lt_succ_self n) (List.mem_enumFrom hp).1

/-- Soundness of the `search_knowledge` filter loop over any suffix of
loop indices: every produced entry passes the threshold, carries the
score `1 − distance` of the index it came from, and — with the backend's
distances ascending — the produced scores are non-increasing. -/
theorem searchKnowledgeGo_spec (res : DocSearchResult) (min_score : ℚ)
    (hsorted : res.distances.Sorted (· ≤ ·)) :
    ∀ (l : List (Nat × String)) (out : List SearchResult),
      List.Pairwise (fun a b : Nat × String => a.1 ≤ b.1) l →
      searchKnowledgeGo res min_score l = some out →
      (∀ r ∈ out, min_score ≤ r.score) ∧
      (∀ r ∈ out, ∃ p ∈ l, ∃ h : p.1 < res.distances.length,
          r.vector_id = p.2 ∧ r.score = 1 - res.distances.get ⟨p.1, h⟩) ∧
      List.Sorted (fun a b => b ≤ a) (out.map SearchResult.score) := by
  intro l
  induction l with
  | nil =>
      intro out _ heq
      simp only [searchKnowledgeGo, Option.some.injEq] at heq
      subst heq
      simp
  | cons p rest ih =>
      obtain ⟨i, idv⟩ := p
      intro out hpw heq
      have hpwrest : List.Pairwise (fun a b : Nat × String => a.1 ≤ b.1) rest :=
        hpw.of_cons
      simp only [searchKnowledgeGo] at heq
      cases hdist : res.distances[i]? with
      | none => simp [hdist] at heq
      | some dist =>
          simp only [hdist] at heq
          obtain ⟨hilen, hgeti⟩ := List.getElem?_eq_some_iff.mp hdist
          by_cases hge : min_score ≤ 1 - dist
          · rw [if_pos hge] at heq
            cases hdoc : res.documents[i]? with
            | none => simp [hdoc] at heq
            | some doc =>
                simp only [hdoc] at heq
                cases hrec : searchKnowledgeGo res min_score rest with
                | none => simp [hrec] at heq
                | some out' =>
                    simp only [hrec, Option.some.injEq] at heq
                    subst heq
                    obtain ⟨ih1, ih2, ih3⟩ := ih out' hpwrest hrec
                    refine ⟨?_, ?_, ?_⟩
                    · intro r hr
                      rcases List.mem_cons.mp hr with hr | hr
                      · subst hr; exact hge
                      · exact ih1 r hr
                    · intro r hr
                      rcases List.mem_cons.mp hr with hr | hr
                      · subst hr
                        exact ⟨(i, idv), List.mem_cons_self _ _, hilen, rfl, by simp [hgeti]⟩
                      · obtain ⟨q, hq, hqlen, hvid, hscore⟩ := ih2 r hr
                        exact ⟨q, List.mem_cons_of_mem _ hq, hqlen, hvid, hscore⟩
                    · rw [List.map_cons, List.sorted_cons]
                      refine ⟨?_, ih3⟩
                      intro s hs
                      obtain ⟨r, hr, hrs⟩ := List.mem_map.mp hs
                      obtain ⟨q, hq, hqlen, _, hscore⟩ := ih2 r hr
                      have hij : i ≤ q.1 := (List.pairwise_cons.mp hpw).1 q hq
                      have hd : res.distances.get ⟨i, hilen⟩ ≤ res.distances.get ⟨q.1, hqlen⟩ :=
                        hsorted.get_mono hij
                      rw [← hrs, hscore]
                      have : dist ≤ res.distances.get ⟨q.1, hqlen⟩ := by
                        rw [← hgeti]; exact hd
                      simp only [SearchResult.score]
                      linarith
          · rw [if_neg hge] at heq
            obtain ⟨ih1, ih2, ih3⟩ := ih out hpwrest heq
            refine ⟨ih1, ?_, ih3⟩
            intro r hr
            obtain ⟨q, hq, hqlen, hvid, hscore⟩ := ih2 r hr
            exact ⟨q, List.mem_cons_of_mem _ hq, hqlen, hvid, hscore⟩

/-- Claim C5: for every vector similarity search with a minimum
similarity threshold (the embedded `VectorStore.search_knowledge`
post-processing, with the ANN backend's contract — distances ascending —
as hypothesis): every returned result's score is `1 − its reported
distance`, every result scoring below the threshold is excluded, and
the returned list is ordered by non-increasing similarity. -/
theorem search_knowledge_filters_and_ranks (res : DocSearchResult) (min_score : ℚ)
    (hsorted : res.distances.Sorted (· ≤ ·)) :
    (∀ r ∈ search_knowledge_results res min_score, min_score ≤ r.score) ∧
    (∀ r ∈ search_knowledge_results res min_score, ∃ i, ∃ h : i < res.distances.length,
        r.score = 1 - res.distances.get ⟨i, h⟩) ∧
    List.Sorted (fun a b => b ≤ a)
      ((search_knowledge_results res min_score).map SearchResult.score) := by
  unfold search_knowledge_results
  cases hgo : searchKnowledgeGo res min_score res.ids.enum with
  | none => simp
  | some out =>
      have hpw : List.Pairwise (fun a b : Nat × String => a.1 ≤ b.1) res.ids.enum :=
        (pairwise_fst_lt_enumFrom res.ids 0).imp le_of_lt
      obtain ⟨h1, h2, h3⟩ := searchKnowledgeGo_spec res min_score hsorted res.ids.enum out hpw hgo
      refine ⟨?_, ?_, ?_⟩
      · intro r hr; exact h1 r (by simpa using hr)
      · intro r hr
        obtain ⟨q, _, hqlen, _, hscore⟩ := h2 r (by simpa using hr)
        exact ⟨q.1, hqlen, hscore⟩
      · simpa using h3

/-- Witness for C5: a two-hit backend answer with ascending distances
`[0, 1]` and threshold `1/2` (similarities `1` and `0`). -/
theorem search_knowledge_filters_and_ranks_witness :
    List.Sorted (· ≤ ·) (DocSearchResult.mk ["a", "b"] ["da", "db"]
        [[("knowledge_id", "k1")], []] [0, 1]).distances ∧
    ((∀ r ∈ search_knowledge_results
          ⟨["a", "b"], ["da", "db"], [[("knowledge_id", "k1")], []], [0, 1]⟩ (1/2),
        (1 : ℚ)/2 ≤ r.score) ∧
      (∀ r ∈ search_knowledge_results
          ⟨["a", "b"], ["da", "db"], [[("knowledge_id", "k1")], []], [0, 1]⟩ (1/2),
        ∃ i, ∃ h : i <
            (DocSearchResult.mk ["a", "b"] ["da", "db"]
              [[("knowledge_id", "k1")], []] [0, 1]).distances.length,
          r.score = 1 - (DocSearchResult.mk ["a", "b"] ["da", "db"]
              [[("knowledge_id", "k1")], []] [0, 1]).distances.get ⟨i, h⟩) ∧
      List.Sorted (fun a b => b ≤ a)
        ((search_knowledge_results
            ⟨["a", "b"], ["da", "db"], [[("knowledge_id", "k1")], []], [0, 1]⟩ (1/2)).map
          SearchResult.score)) :=
  ⟨by simp [List.sorted_cons],
   search_knowledge_filters_and_ranks
     ⟨["a", "b"], ["da", "db"], [[("knowledge_id", "k1")], []], [0, 1]⟩ (1/2)
     (by simp [List.sorted_cons])⟩

/-! ## Claim C9 — termination of the split-point search -/

/-- `_find_best_split_point` never proposes a split beyond the target
boundary: every candidate source (paragraph window, sentence window,
word fallback range, character cut) is bounded by `target_end`. -/
theorem find_best_le_target (cs : List Char) (start target : Nat) (st : DocStructure) :
    _find_best_split_point cs start target st ≤ target := by
  unfold _find_best_split_point
  dsimp only
  split
  · next pos hp =>
      have := List.find?_some hp
      simp only [Bool.and_eq_true, decide_eq_true_eq] at this
      exact this.2
  · split
    · next pos hs =>
        have := List.find?_some hs
        simp only [Bool.and_eq_true, decide_eq_true_eq] at this
        exact this.2
    · split
      · next i hw =>
          have hmem := List.mem_of_find?_eq_some hw
          unfold wordCandidates at hmem
          rw [List.mem_reverse, List.mem_range'_1] at hmem
          omega
      · exact le_refl target

/-- The split loop's result does not depend on the fuel, as long as the
fuel covers the remaining distance to the end of the text: the cursor
strictly advances each iteration, so `cs.length - cur` iterations always
suffice.  This is the termination argument of the source's `while`
loop. -/
theorem splitPointsAux_fuel_irrelevant (cs : List Char) (mcs ov : Nat) (st : DocStructure) :
    ∀ f1 cur f2, cs.length - cur ≤ f1 → cs.length - cur ≤ f2 →
      splitPointsAux cs mcs ov st f1 cur = splitPointsAux cs mcs ov st f2 cur := by
  intro f1
  induction f1 with
  | zero =>
      intro cur f2 h1 _
      have hcur : ¬ cur < cs.length := by omega
      cases f2 with
      | zero => rfl
      | succ m => simp [splitPointsAux, hcur]
  | succ n ih =>
      intro cur f2 h1 h2
      cases f2 with
      | zero =>
          have hcur : ¬ cur < cs.length := by omega
          simp [splitPointsAux, hcur]
      | succ m =>
          by_cases hcur : cur < cs.length
          · by_cases hbr : cs.length ≤ min (cur + mcs) cs.length
            · simp [splitPointsAux, hcur, hbr]
            · have hstep : cur <
                  next_cursor
                    (_find_best_split_point cs cur (min (cur + mcs) cs.length) st) ov cur :=
                lt_of_lt_of_le (Nat.lt_succ_self cur) (le_max_right _ _)
              have hrec := ih
                (next_cursor
                  (_find_best_split_point cs cur (min (cur + mcs) cs.length) st) ov cur)
                m (by omega) (by omega)
              simp [splitPointsAux, hcur, hbr, hrec]
          · simp [splitPointsAux, hcur]

/-- Each loop iteration contributes one split point and strictly
advances the cursor, so the list is bounded by the remaining length. -/
theorem splitPointsAux_length_le (cs : List Char) (mcs ov : Nat) (st : DocStructure) :
    ∀ fuel cur, (splitPointsAux cs mcs ov st fuel cur).length ≤ cs.length - cur + 1 := by
  intro fuel
  induction fuel with
  | zero => intro cur; simp [splitPointsAux]
  | succ n ih =>
      intro cur
      by_cases hcur : cur < cs.length
      · by_cases hbr : cs.length ≤ min (cur + mcs) cs.length
        · simp [splitPointsAux, hcur, hbr]
        · have hstep : cur <
              next_cursor
                (_find_best_split_point cs cur (min (cur + mcs) cs.length) st) ov cur :=
            lt_of_lt_of_le (Nat.lt_succ_self cur) (le_max_right _ _)
          have hrec := ih
            (next_cursor (_find_best_split_point cs cur (min (cur + mcs) cs.length) st) ov cur)
          simp only [splitPointsAux, hcur, hbr, if_true, ite_true, if_false, ite_false,
            List.length_cons]
          omega
      · simp [splitPointsAux, hcur]

/-- Claim C9: the split-point search terminates for every text, every
`maxChunkSize ≥ 1` and every overlap.  After each chosen split the
cursor advances to `max(chosenSplit − overlap, previousCursor + 1)`,
strictly greater than the previous cursor; consequently `cs.length`
iterations of fuel always suffice (the loop's result is
fuel-independent beyond that — the embedded form of termination), and
the split-point list is finite, of length at most `cs.length + 2`,
even when the overlap reaches or exceeds the remaining window. -/
theorem split_point_search_terminates (cs : List Char) (mcs ov : Nat) (st : DocStructure)
    (_hm : 1 ≤ mcs) :
    (∀ chosen prev, prev < next_cursor chosen ov prev) ∧
    (∀ fuel, cs.length ≤ fuel →
      splitPointsAux cs mcs ov st fuel 0 = splitPointsAux cs mcs ov st cs.length 0) ∧
    (find_optimal_split_points cs mcs ov st).length ≤ cs.length + 2 := by
  refine ⟨?_, ?_, ?_⟩
  · intro chosen prev
    exact lt_of_lt_of_le (Nat.lt_succ_self prev) (le_max_right _ _)
  · intro fuel hf
    exact splitPointsAux_fuel_irrelevant cs mcs ov st fuel 0 cs.length (by omega) (by omega)
  · have := splitPointsAux_length_le cs mcs ov st cs.length 0
    simp only [find_optimal_split_points, List.length_cons]
    omega

/-- Witness for C9: a short text with the overlap (100) far exceeding
the window (`maxChunkSize = 3`). -/
theorem split_point_search_terminates_witness :
    1 ≤ 3 ∧
    ((∀ chosen prev, prev < next_cursor chosen 100 prev) ∧
      (∀ fuel, ("hello world".toList).length ≤ fuel →
        splitPointsAux ("hello world".toList) 3 100
            (detect_document_structure ("hello world".toList)) fuel 0 =
          splitPointsAux ("hello world".toList) 3 100
            (detect_document_structure ("hello world".toList)) ("hello world".toList).length 0) ∧
      (find_optimal_split_points ("hello world".toList) 3 100
          (detect_document_structure ("hello world".toList))).length ≤
        ("hello world".toList).length + 2) :=
  ⟨by decide,
   split_point_search_terminates ("hello world".toList) 3 100
     (detect_document_structure ("hello world".toList)) (by decide)⟩

/-! ## Fuel adequacy of the scanner embeddings

Each regex scanner consumes at least one character per step, so its
result is independent of the fuel once the fuel covers the text length;
the fuel-exhausted clauses are unreachable for the fuel the wrappers
supply. -/

/-- The newline-collapsing scanner is fuel-independent beyond the text
length. -/
theorem cleanNewlinesGo_fuel_irrelevant :
    ∀ (f1 : Nat) (cs : List Char) (f2 : Nat), cs.length ≤ f1 → cs.length ≤ f2 →
      cleanNewlinesGo f1 cs = cleanNewlinesGo f2 cs := by
  intro f1
  induction f1 with
  | zero =>
      intro cs f2 h1 _
      have hnil : cs = [] := List.length_eq_zero.mp (by omega)
      subst hnil
      cases f2 <;> rfl
  | succ n ih =>
      intro cs f2 h1 h2
      cases cs with
      | nil => cases f2 <;> rfl
      | cons c rest =>
          cases f2 with
          | zero => simp at h2
          | succ m =>
              simp only [cleanNewlinesGo]
              by_cases hc : c = '\n'
              · simp only [if_pos hc]
                by_cases h3 :
                    3 ≤ (newlinePositions (List.takeWhile pyIsSpace (c :: rest))).length
                · simp only [if_pos h3]
                  cases hlast :
                      (newlinePositions (List.takeWhile pyIsSpace (c :: rest))).getLast? with
                  | none =>
                      have hre := ih rest m (by simpa using h1) (by simpa using h2)
                      simp only [hre]
                  | some b =>
                      have hre := ih ((c :: rest).drop (b + 1)) m
                        (by simp [List.length_drop] at h1 ⊢; omega)
                        (by simp [List.length_drop] at h2 ⊢; omega)
                      simp only [hre]
                · simp only [if_neg h3]
                  have hre := ih rest m (by simpa using h1) (by simpa using h2)
                  simp only [hre]
              · simp only [if_neg hc]
                have hre := ih rest m (by simpa using h1) (by simpa using h2)
                simp only [hre]

/-- The paragraph scanner is fuel-independent beyond the text length. -/
theorem scanParagraphsGo_fuel_irrelevant :
    ∀ (f1 : Nat) (cs : List Char) (f2 pos : Nat), cs.length ≤ f1 → cs.length ≤ f2 →
      scanParagraphsGo f1 cs pos = scanParagraphsGo f2 cs pos := by
  intro f1
  induction f1 with
  | zero =>
      intro cs f2 pos h1 _
      have hnil : cs = [] := List.length_eq_zero.mp (by omega)
      subst hnil
      cases f2 <;> rfl
  | succ n ih =>
      intro cs f2 pos h1 h2
      cases cs with
      | nil => cases f2 <;> rfl
      | cons c rest =>
          cases f2 with
          | zero => simp at h2
          | succ m =>
              simp only [scanParagraphsGo]
              by_cases hc : c = '\n'
              · simp only [if_pos hc]
                by_cases h3 :
                    2 ≤ (newlinePositions (List.takeWhile pyIsSpace (c :: rest))).length
                · simp only [if_pos h3]
                  cases hlast :
                      (newlinePositions (List.takeWhile pyIsSpace (c :: rest))).getLast? with
                  | none =>
                      have hre := ih rest m (pos + 1) (by simpa using h1) (by simpa using h2)
                      simp only [hre]
                  | some b =>
                      have hre := ih ((c :: rest).drop (b + 1)) m (pos + b + 1)
                        (by simp [List.length_drop] at h1 ⊢; omega)
                        (by simp [List.length_drop] at h2 ⊢; omega)
                      simp only [hre]
                · simp only [if_neg h3]
                  have hre := ih rest m (pos + 1) (by simpa using h1) (by simpa using h2)
                  simp only [hre]
              · simp only [if_neg hc]
                have hre := ih rest m (pos + 1) (by simpa using h1) (by simpa using h2)
                simp only [hre]

/-- The sentence scanner is fuel-independent beyond the text length. -/
theorem scanSentencesGo_fuel_irrelevant :
    ∀ (f1 : Nat) (cs : List Char) (f2 pos : Nat), cs.length ≤ f1 → cs.length ≤ f2 →
      scanSentencesGo f1 cs pos = scanSentencesGo f2 cs pos := by
  intro f1
  induction f1 with
  | zero =>
      intro cs f2 pos h1 _
      have hnil : cs = [] := List.length_eq_zero.mp (by omega)
      subst hnil
      cases f2 <;> rfl
  | succ n ih =>
      intro cs f2 pos h1 h2
      cases cs with
      | nil => cases f2 <;> rfl
      | cons c rest =>
          cases f2 with
          | zero => simp at h2
          | succ m =>
              simp only [scanSentencesGo]
              by_cases hc : isPunct c = true
              · simp only [if_pos hc]
                by_cases hws : 1 ≤ (List.takeWhile pyIsSpace
                    ((c :: rest).drop (List.takeWhile isPunct (c :: rest)).length)).length
                · simp only [if_pos hws]
                  have hp : 1 ≤ (List.takeWhile isPunct (c :: rest)).length := by
                    rw [List.takeWhile_cons, if_pos hc]
                    simp
                  have hre := ih ((c :: rest).drop ((List.takeWhile isPunct (c :: rest)).length +
                        (List.takeWhile pyIsSpace ((c :: rest).drop
                          (List.takeWhile isPunct (c :: rest)).length)).length)) m
                    (pos + ((List.takeWhile isPunct (c :: rest)).length +
                      (List.takeWhile pyIsSpace ((c :: rest).drop
                        (List.takeWhile isPunct (c :: rest)).length)).length))
                    (by simp [List.length_drop] at h1 ⊢; omega)
                    (by simp [List.length_drop] at h2 ⊢; omega)
                  simp only [hre]
                · simp only [if_neg hws]
                  have hre := ih rest m (pos + 1) (by simpa using h1) (by simpa using h2)
                  simp only [hre]
              · simp only [if_neg hc]
                have hre := ih rest m (pos + 1) (by simpa using h1) (by simpa using h2)
                simp only [hre]

/-! ## Claim C4 — chunk reconstruction -/

/-- The last element of a cons is the last element of its non-empty
tail. -/
theorem getLast?_cons_of_ne_nil (a : α) (l : List α) (h : l ≠ []) :
    (a :: l).getLast? = l.getLast? := by
  cases l with
  | nil => exact absurd rfl h
  | cons x xs => exact List.getLast?_cons_cons

/-- With `maxChunkSize ≥ 1` and the cursor inside the text, the split
loop (given enough fuel) ends its point list exactly at `cs.length`. -/
theorem splitPointsAux_getLast (cs : List Char) (mcs ov : Nat) (st : DocStructure)
    (hm : 1 ≤ mcs) :
    ∀ fuel cur, cur < cs.length → cs.length - cur ≤ fuel →
      (splitPointsAux cs mcs ov st fuel cur).getLast? = some cs.length := by
  intro fuel
  induction fuel with
  | zero => intro cur hcur hfuel; omega
  | succ n ih =>
      intro cur hcur hfuel
      by_cases hbr : cs.length ≤ min (cur + mcs) cs.length
      · simp [splitPointsAux, hcur, hbr]
      · have hble := find_best_le_target cs cur (min (cur + mcs) cs.length) st
        have htlt : min (cur + mcs) cs.length < cs.length := by omega
        have hcur' :
            next_cursor (_find_best_split_point cs cur (min (cur + mcs) cs.length) st) ov cur <
              cs.length := by
          have h1 :
              _find_best_split_point cs cur (min (cur + mcs) cs.length) st - ov < cs.length := by
            omega
          have h2 : cur + 1 < cs.length := by omega
          exact max_lt h1 h2
        have hstep : cur <
            next_cursor (_find_best_split_point cs cur (min (cur + mcs) cs.length) st) ov cur :=
          lt_of_lt_of_le (Nat.lt_succ_self cur) (le_max_right _ _)
        have hrec := ih
          (next_cursor (_find_best_split_point cs cur (min (cur + mcs) cs.length) st) ov cur)
          hcur' (by omega)
        have hne : splitPointsAux cs mcs ov st n
            (next_cursor (_find_best_split_point cs cur (min (cur + mcs) cs.length) st) ov cur) ≠
            [] := by
          intro h0
          rw [h0] at hrec
          exact absurd hrec (by simp)
        simp only [splitPointsAux, hcur, hbr, if_true, ite_true, if_false, ite_false]
        rw [getLast?_cons_of_ne_nil _ _ hne]
        exact hrec

/-- A `(· ≤ ·)` chain is bounded by its last element. -/
theorem chain'_le_getLastD (b : Nat) : ∀ (pts : List Nat),
    List.Chain' (· ≤ ·) (b :: pts) → b ≤ pts.getLastD b := by
  intro pts
  induction pts generalizing b with
  | nil => intro _; simp
  | cons c pts' ih =>
      intro hch
      have hbc : b ≤ c := (List.chain'_cons.mp hch).1
      have h2 := ih c (List.chain'_cons.mp hch).2
      rw [List.getLastD_cons]
      exact le_trans hbc h2

/-- Adjacent Python slices concatenate: `s[a:b] + s[b:c] = s[a:c]` for
`a ≤ b ≤ c`. -/
theorem pySlice_append (cs : List Char) (a b c : Nat) (hab : a ≤ b) (hbc : b ≤ c) :
    pySlice cs a b ++ pySlice cs b c = pySlice cs a c := by
  unfold pySlice
  have h1 : List.drop b cs = List.drop (b - a) (List.drop a cs) := by
    rw [List.drop_drop]
    congr 1
    omega
  rw [h1, ← List.take_add]
  congr 1
  omega

/-- Joining the slices between consecutive points of a `(· ≤ ·)` chain
gives the slice from the first point to the last. -/
theorem sliceJoin_eq_slice (cs : List Char) : ∀ (pts : List Nat) (a : Nat),
    List.Chain' (· ≤ ·) (a :: pts) →
    sliceJoin cs (a :: pts) = pySlice cs a (pts.getLastD a) := by
  intro pts
  induction pts with
  | nil =>
      intro a _
      simp [sliceJoin, consecutivePairs, pySlice]
  | cons b pts' ih =>
      intro a hch
      have hab : a ≤ b := (List.chain'_cons.mp hch).1
      have hch' : List.Chain' (· ≤ ·) (b :: pts') := (List.chain'_cons.mp hch).2
      have hbl : b ≤ pts'.getLastD b := chain'_le_getLastD b pts' hch'
      have hmain : sliceJoin cs (a :: b :: pts') = pySlice cs a b ++ sliceJoin cs (b :: pts') := by
        simp [sliceJoin, consecutivePairs]
      rw [hmain, ih b hch', pySlice_append cs a b (pts'.getLastD b) hab hbl,
        List.getLastD_cons]

/-- Every chunk assembled by the chunk-building loop carries as content
the whitespace-stripped slice of the cleaned text between its recorded
offsets, and those offsets are a consecutive pair of the split-point
list. -/
theorem buildChunks_content (cs : List Char) (ov total orig : Nat) :
    ∀ (pts : List Nat) (i : Nat), ∀ ch ∈ buildChunks cs ov total orig i pts,
      ch.content = pyStrip (pySlice cs ch.chunk_start ch.chunk_end) ∧
      (ch.chunk_start, ch.chunk_end) ∈ consecutivePairs pts := by
  intro pts
  induction pts with
  | nil =>
      intro i ch hch
      simp [buildChunks] at hch
  | cons p rest ih =>
      cases rest with
      | nil =>
          intro i ch hch
          simp [buildChunks] at hch
      | cons q rest' =>
          intro i ch hch
          simp only [buildChunks] at hch
          by_cases hemp : (pyStrip (pySlice cs p q)).isEmpty
          · rw [if_pos hemp] at hch
            obtain ⟨hc, hpair⟩ := ih (i + 1) ch hch
            exact ⟨hc, List.mem_cons_of_mem _ hpair⟩
          · rw [if_neg hemp] at hch
            rcases List.mem_cons.mp hch with hch | hch
            · subst hch
              exact ⟨rfl, by simp [consecutivePairs]⟩
            · obtain ⟨hc, hpair⟩ := ih (i + 1) ch hch
              exact ⟨hc, List.mem_cons_of_mem _ hpair⟩

/-- Claim C4, counterexample: the claim says concatenating the chunks
in order with each chunk's recorded overlap removed reconstructs the
cleaned source exactly.  For `"abcde fghij klmno"` with
`maxChunkSize = 10`, `overlap = 2`, the cleaned text (17 chars) exceeds
the budget; the produced chunks are the *disjoint* stripped slices
`"abcde fghi"` and `"j klmno"` whose recorded
`overlap_with_previous = 2` is the nominal parameter, so removing it
deletes real characters: the reconstruction yields
`"abcde fghiklmno"`, not the cleaned source. -/
theorem chunk_overlap_reconstruction_refuted :
    10 < (_clean_content ("abcde fghij klmno".toList)).length ∧
    reconstructWithOverlapRemoved (split_document ("abcde fghij klmno".toList) 10 2) ≠
      _clean_content ("abcde fghij klmno".toList) :=
  ⟨by decide, by decide⟩

/-- Claim C4 as amended: for a non-empty text whose cleaned form
exceeds `maxChunkSize` (and `maxChunkSize ≥ 1`), the split-point list
starts at 0 and ends at the cleaned length; each emitted chunk's
content is the *whitespace-stripped* slice of the cleaned text between
a consecutive pair of split points — the stored slices are contiguous
and disjoint, no overlap is embedded in the content — and whenever the
split-point list is monotone, concatenating the raw (unstripped) slices
in order reconstructs the cleaned source exactly.  (Reconstruction thus
holds up to the whitespace stripped at chunk boundaries, with no
overlap removal; not as originally claimed.) -/
theorem split_document_chunks_are_stripped_slices (content : List Char) (mcs ov : Nat)
    (hm : 1 ≤ mcs) (hne : (pyStrip content).isEmpty = false)
    (hlong : mcs < (_clean_content content).length) :
    (find_optimal_split_points (_clean_content content) mcs ov
        (detect_document_structure (_clean_content content))).head? = some 0 ∧
    (find_optimal_split_points (_clean_content content) mcs ov
        (detect_document_structure (_clean_content content))).getLast? =
      some (_clean_content content).length ∧
    (List.Chain' (· ≤ ·)
        (find_optimal_split_points (_clean_content content) mcs ov
          (detect_document_structure (_clean_content content))) →
      sliceJoin (_clean_content content)
          (find_optimal_split_points (_clean_content content) mcs ov
            (detect_document_structure (_clean_content content))) =
        _clean_content content) ∧
    (∀ ch ∈ split_document content mcs ov,
      ch.content = pyStrip (pySlice (_clean_content content) ch.chunk_start ch.chunk_end) ∧
      (ch.chunk_start, ch.chunk_end) ∈
        consecutivePairs
          (find_optimal_split_points (_clean_content content) mcs ov
            (detect_document_structure (_clean_content content)))) := by
  have hpos : 0 < (_clean_content content).length := by omega
  have hlast := splitPointsAux_getLast (_clean_content content) mcs ov
    (detect_document_structure (_clean_content content)) hm (_clean_content content).length 0
    hpos (by omega)
  have hauxne : splitPointsAux (_clean_content content) mcs ov
      (detect_document_structure (_clean_content content)) (_clean_content content).length 0 ≠
      [] := by
    intro h0
    rw [h0] at hlast
    exact absurd hlast (by simp)
  refine ⟨rfl, ?_, ?_, ?_⟩
  · unfold find_optimal_split_points
    rw [getLast?_cons_of_ne_nil _ _ hauxne]
    exact hlast
  · intro hch
    unfold find_optimal_split_points at hch ⊢
    rw [sliceJoin_eq_slice _ _ 0 hch]
    have hlastD : (splitPointsAux (_clean_content content) mcs ov
        (detect_document_structure (_clean_content content)) (_clean_content content).length
          0).getLastD 0 = (_clean_content content).length := by
      rw [List.getLastD_eq_getLast?, hlast]
      rfl
    rw [hlastD]
    unfold pySlice
    rw [List.drop_zero, Nat.sub_zero, List.take_length]
  · intro ch hch
    have hsd : split_document content mcs ov =
        buildChunks (_clean_content content) ov
          ((find_optimal_split_points (_clean_content content) mcs ov
              (detect_document_structure (_clean_content content))).length - 1)
          (_clean_content content).length 0
          (find_optimal_split_points (_clean_content content) mcs ov
            (detect_document_structure (_clean_content content))) := by
      unfold split_document
      rw [hne]
      simp only [Bool.false_eq_true, if_false, ite_false]
      rw [if_neg (by omega)]
    rw [hsd] at hch
    exact buildChunks_content (_clean_content content) ov _ _ _ 0 ch hch

/-- Witness for C4's amended theorem at `"abcde fghij klmno"`,
`maxChunkSize = 10`, `overlap = 2` (split points `[0, 10, 17]`). -/
theorem split_document_chunks_are_stripped_slices_witness :
    1 ≤ 10 ∧ (pyStrip ("abcde fghij klmno".toList)).isEmpty = false ∧
    10 < (_clean_content ("abcde fghij klmno".toList)).length ∧
    ((find_optimal_split_points (_clean_content ("abcde fghij klmno".toList)) 10 2
        (detect_document_structure (_clean_content ("abcde fghij klmno".toList)))).head? =
      some 0 ∧
    (find_optimal_split_points (_clean_content ("abcde fghij klmno".toList)) 10 2
        (detect_document_structure (_clean_content ("abcde fghij klmno".toList)))).getLast? =
      some (_clean_content ("abcde fghij klmno".toList)).length ∧
    (List.Chain' (· ≤ ·)
        (find_optimal_split_points (_clean_content ("abcde fghij klmno".toList)) 10 2
          (detect_document_structure (_clean_content ("abcde fghij klmno".toList)))) →
      sliceJoin (_clean_content ("abcde fghij klmno".toList))
          (find_optimal_split_points (_clean_content ("abcde fghij klmno".toList)) 10 2
            (detect_document_structure (_clean_content ("abcde fghij klmno".toList)))) =
        _clean_content ("abcde fghij klmno".toList)) ∧
    (∀ ch ∈ split_document ("abcde fghij klmno".toList) 10 2,
      ch.content =
        pyStrip (pySlice (_clean_content ("abcde fghij klmno".toList)) ch.chunk_start
          ch.chunk_end) ∧
      (ch.chunk_start, ch.chunk_end) ∈
        consecutivePairs
          (find_optimal_split_points (_clean_content ("abcde fghij klmno".toList)) 10 2
            (detect_document_structure (_clean_content ("abcde fghij klmno".toList)))))) :=
  ⟨by decide, by decide, by decide,
   split_document_chunks_are_stripped_slices ("abcde fghij klmno".toList) 10 2
     (by decide) (by decide) (by decide)⟩

end ChatbotBE
